import Mathlib

/-!
Shallow embedding of `pm/auxdata.go` (go-livepeer): creation and validation of
the 64-byte ticket auxiliary data `BigEndian32(round) || blockHash`.

Modelling choices:
* a Go `byte` is `Fin 256`; a Go `[]byte` is `List Byte`; a Go `[32]byte` is
  the subtype `Bytes32` of lists of length 32;
* a `big.Int` round supplied by the oracle is a `Nat` (the protocol round is
  non-negative);
* the `RoundsManager` oracle is a record of its two responses, each an
  `Except E _` where `E` is an arbitrary type of oracle errors (a Go
  `(value, error)` pair);
* `Validate` returns `Option (VErr E)`: `none` models a `nil` error, and the
  constructors of `VErr` model the three sentinel errors of the file plus a
  verbatim-propagated oracle error;
* to reason about which oracle queries a `Validate` call performs, the
  embedding `ValidateWithLog` additionally returns the list of oracle calls
  made, in order; `Validate` is its first projection.
-/

namespace PM

/-- A Go `byte`. -/
abbrev Byte := Fin 256

/-- A Go `[32]byte`: a list of bytes of length exactly 32. -/
abbrev Bytes32 := { l : List Byte // l.length = 32 }

/-- The errors `Validate` can return: the three sentinel errors declared in
`pm/auxdata.go`, or an oracle error propagated verbatim. -/
inductive VErr (E : Type) where
  | oracle (e : E)
  | errInvalidAuxDataLength
  | errInvalidCreationRound
  | errInvalidCreationRoundBlockHash
deriving DecidableEq

/-- The `RoundsManager` oracle interface: its two responses. The round is a
non-negative integer (`big.Int` in Go), the block hash a `[32]byte`. -/
structure RoundsManager (E : Type) where
  lastInitializedRound : Except E Nat
  blockHashForRound : Nat → Except E Bytes32

/-- One oracle query, as recorded by the instrumented `ValidateWithLog`. -/
inductive OracleCall where
  | lastInitializedRound
  | blockHashForRound (round : Nat)
deriving DecidableEq

/-- Go-ethereum `common.LeftPadBytes slice l`: returns `slice` unchanged when
`l <= len(slice)`, otherwise prepends `l - len(slice)` zero bytes. -/
def leftPadBytes (slice : List Byte) (l : Nat) : List Byte :=
  if l ≤ slice.length then slice
  else List.replicate (l - slice.length) 0 ++ slice

/-- Fuel-driven minimal big-endian byte encoding (structurally recursive so
that it computes by `decide`/`rfl`); `minBigEndian` supplies the fuel. -/
def minBigEndianAux : Nat → Nat → List Byte
  | 0, _ => []
  | fuel + 1, n =>
    if n = 0 then []
    else minBigEndianAux fuel (n / 256) ++ [⟨n % 256, Nat.mod_lt _ (by norm_num)⟩]

/-- `big.Int.Bytes()`: the minimal big-endian byte encoding of a non-negative
integer; the empty list for 0. -/
def minBigEndian (n : Nat) : List Byte :=
  minBigEndianAux n n

/-- `big.Int.SetBytes`: interpret a byte list as an unsigned big-endian
integer. -/
def setBytes (l : List Byte) : Nat :=
  l.foldl (fun acc b => acc * 256 + b.val) 0

/-- `RoundAuxDataCreator.Create`: query the oracle for the last initialized
round and its block hash, propagate either error verbatim with no data, and
otherwise return the 32-byte left-padded big-endian round followed by the
32 hash bytes. -/
def Create {E : Type} (m : RoundsManager E) : Except E (List Byte) :=
  match m.lastInitializedRound with
  | .error e => .error e
  | .ok round =>
    match m.blockHashForRound round with
    | .error e => .error e
    | .ok blkHash => .ok (leftPadBytes (minBigEndian round) 32 ++ blkHash.val)

/-- `RoundAuxDataValidator.Validate`, instrumented with the ordered list of
oracle queries it performs. The control flow follows the source: length check
first (no oracle call), then the two oracle queries (errors propagated
verbatim), then the numeric round comparison, then the byte-wise hash
comparison. -/
def ValidateWithLog {E : Type} (m : RoundsManager E) (auxData : List Byte) :
    Option (VErr E) × List OracleCall :=
  if auxData.length ≠ 64 then (some .errInvalidAuxDataLength, [])
  else
    let creationRound := setBytes (auxData.take 32)
    let creationRoundBlkHash := auxData.drop 32
    match m.lastInitializedRound with
    | .error e => (some (.oracle e), [.lastInitializedRound])
    | .ok round =>
      match m.blockHashForRound round with
      | .error e => (some (.oracle e), [.lastInitializedRound, .blockHashForRound round])
      | .ok blkHash =>
        if creationRound ≠ round then
          (some .errInvalidCreationRound, [.lastInitializedRound, .blockHashForRound round])
        else if creationRoundBlkHash ≠ blkHash.val then
          (some .errInvalidCreationRoundBlockHash,
            [.lastInitializedRound, .blockHashForRound round])
        else (none, [.lastInitializedRound, .blockHashForRound round])

/-- `RoundAuxDataValidator.Validate`: the returned error (or `none` for a
`nil` error). -/
def Validate {E : Type} (m : RoundsManager E) (auxData : List Byte) : Option (VErr E) :=
  (ValidateWithLog m auxData).1

/-- The ordered list of oracle queries a `Validate` call performs. -/
def ValidateCalls {E : Type} (m : RoundsManager E) (auxData : List Byte) : List OracleCall :=
  (ValidateWithLog m auxData).2

/-- The 32-byte all-zero block hash. -/
def zero32 : Bytes32 := ⟨List.replicate 32 0, List.length_replicate 32 0⟩

/-- Spec-side definition ("32-byte big-endian encoding"): `beBytes k n` is the
`k`-byte big-endian digit expansion of `n`, written independently of the
source's pad-the-minimal-bytes computation, for comparison with it. -/
def beBytes : Nat → Nat → List Byte
  | 0, _ => []
  | k + 1, n => beBytes k (n / 256) ++ [⟨n % 256, Nat.mod_lt _ (by norm_num)⟩]

theorem minBigEndianAux_zero (fuel : Nat) : minBigEndianAux fuel 0 = [] := by
  cases fuel <;> simp [minBigEndianAux]

theorem minBigEndianAux_congr :
    ∀ fuel1 fuel2 n, n ≤ fuel1 → n ≤ fuel2 →
      minBigEndianAux fuel1 n = minBigEndianAux fuel2 n := by
  intro fuel1
  induction fuel1 with
  | zero =>
    intro fuel2 n h1 _
    have hn : n = 0 := Nat.le_zero.mp h1
    subst hn
    simp [minBigEndianAux_zero]
  | succ f ih =>
    intro fuel2 n h1 h2
    by_cases hn : n = 0
    · subst hn
      simp [minBigEndianAux_zero]
    · cases fuel2 with
      | zero => omega
      | succ f2 =>
        have hd : n / 256 < n := Nat.div_lt_self (Nat.pos_of_ne_zero hn) (by norm_num)
        simp only [minBigEndianAux, if_neg hn]
        rw [ih f2 (n / 256) (by omega) (by omega)]

/-- The recursion equation of `minBigEndian`, with the fuel hidden. -/
theorem minBigEndian_eq (n : Nat) :
    minBigEndian n =
      if n = 0 then []
      else minBigEndian (n / 256) ++ [⟨n % 256, Nat.mod_lt _ (by norm_num)⟩] := by
  by_cases hn : n = 0
  · subst hn
    simp [minBigEndian, minBigEndianAux]
  · rw [if_neg hn]
    cases n with
    | zero => exact absurd rfl hn
    | succ m =>
      have hd : (m + 1) / 256 ≤ m := by
        have : (m + 1) / 256 < m + 1 := Nat.div_lt_self (by omega) (by norm_num)
        omega
      simp only [minBigEndian, minBigEndianAux, if_neg hn]
      rw [minBigEndianAux_congr m ((m + 1) / 256) ((m + 1) / 256) hd le_rfl]

theorem setBytes_concat (l : List Byte) (b : Byte) :
    setBytes (l ++ [b]) = setBytes l * 256 + b.val := by
  simp [setBytes, List.foldl_append]

theorem setBytes_replicate_zero (k : Nat) :
    setBytes (List.replicate k (0 : Byte)) = 0 := by
  induction k with
  | zero => rfl
  | succ m ih => simpa [setBytes, List.replicate_succ] using ih

theorem setBytes_replicate_zero_append (j : Nat) (l : List Byte) :
    setBytes (List.replicate j (0 : Byte) ++ l) = setBytes l := by
  have h0 := setBytes_replicate_zero j
  simp only [setBytes] at h0 ⊢
  rw [List.foldl_append, h0]

/-- Decoding undoes the minimal big-endian encoding. -/
theorem setBytes_minBigEndian (n : Nat) : setBytes (minBigEndian n) = n := by
  induction n using Nat.strong_induction_on with
  | _ n ih =>
    rw [minBigEndian_eq]
    by_cases hn : n = 0
    · simp [hn, setBytes]
    · rw [if_neg hn, setBytes_concat,
        ih (n / 256) (Nat.div_lt_self (Nat.pos_of_ne_zero hn) (by norm_num))]
      show n / 256 * 256 + n % 256 = n
      omega

/-- A value below `256 ^ k` has a minimal encoding of at most `k` bytes. -/
theorem minBigEndian_length_le {n k : Nat} (h : n < 256 ^ k) :
    (minBigEndian n).length ≤ k := by
  induction k generalizing n with
  | zero =>
    have hn : n = 0 := by simpa using h
    subst hn
    rw [minBigEndian_eq]
    simp
  | succ m ih =>
    rw [minBigEndian_eq]
    by_cases hn : n = 0
    · simp [hn]
    · rw [if_neg hn]
      have hd : n / 256 < 256 ^ m := by
        rw [Nat.div_lt_iff_lt_mul (by norm_num)]
        calc n < 256 ^ (m + 1) := h
          _ = 256 ^ m * 256 := by rw [Nat.pow_succ]
      have := ih hd
      simp only [List.length_append, List.length_cons, List.length_nil]
      omega

/-- A value is below `256` to the power of its minimal encoding length. -/
theorem minBigEndian_lt (n : Nat) : n < 256 ^ (minBigEndian n).length := by
  induction n using Nat.strong_induction_on with
  | _ n ih =>
    rw [minBigEndian_eq]
    by_cases hn : n = 0
    · simp [hn]
    · rw [if_neg hn]
      have hd : n / 256 < n := Nat.div_lt_self (Nat.pos_of_ne_zero hn) (by norm_num)
      have hih := ih (n / 256) hd
      simp only [List.length_append, List.length_cons, List.length_nil]
      rw [Nat.pow_succ]
      have hmod := Nat.div_add_mod n 256
      have hm : n % 256 < 256 := Nat.mod_lt _ (by norm_num)
      set x := (256 : Nat) ^ (minBigEndian (n / 256)).length with hx
      omega

theorem leftPadBytes_eq_replicate {slice : List Byte} {l : Nat}
    (h : slice.length ≤ l) :
    leftPadBytes slice l = List.replicate (l - slice.length) 0 ++ slice := by
  unfold leftPadBytes
  split
  · have hlen : slice.length = l := le_antisymm h (by assumption)
    simp [hlen]
  · rfl

theorem leftPadBytes_length {slice : List Byte} {l : Nat} (h : slice.length ≤ l) :
    (leftPadBytes slice l).length = l := by
  rw [leftPadBytes_eq_replicate h]
  simp
  omega

theorem beBytes_length (k n : Nat) : (beBytes k n).length = k := by
  induction k generalizing n with
  | zero => rfl
  | succ m ih => simp [beBytes, ih]

theorem beBytes_zero (k : Nat) : beBytes k 0 = List.replicate k 0 := by
  induction k with
  | zero => rfl
  | succ m ih =>
    rw [List.replicate_succ']
    simp [beBytes, ih]

theorem beBytes_succ_of_lt {n k : Nat} (h : n < 256 ^ k) :
    beBytes (k + 1) n = 0 :: beBytes k n := by
  induction k generalizing n with
  | zero =>
    have hn : n = 0 := by simpa using h
    subst hn
    simp [beBytes]
  | succ m ih =>
    have hd : n / 256 < 256 ^ m := by
      rw [Nat.div_lt_iff_lt_mul (by norm_num)]
      calc n < 256 ^ (m + 1) := h
        _ = 256 ^ m * 256 := by rw [Nat.pow_succ]
    show beBytes (m + 2) n = 0 :: beBytes (m + 1) n
    calc beBytes (m + 2) n
        = beBytes (m + 1) (n / 256) ++ [⟨n % 256, Nat.mod_lt _ (by norm_num)⟩] := rfl
      _ = (0 :: beBytes m (n / 256)) ++ [⟨n % 256, Nat.mod_lt _ (by norm_num)⟩] := by
          rw [ih hd]
      _ = 0 :: beBytes (m + 1) n := rfl

theorem beBytes_of_le {n k : Nat} (h : n < 256 ^ k) :
    ∀ m, k ≤ m → beBytes m n = List.replicate (m - k) 0 ++ beBytes k n := by
  intro m hm
  induction m, hm using Nat.le_induction with
  | base => simp
  | succ m hm ih =>
    have hlt : n < 256 ^ m := lt_of_lt_of_le h (Nat.pow_le_pow_right (by norm_num) hm)
    rw [beBytes_succ_of_lt hlt, ih,
      show m + 1 - k = (m - k) + 1 by omega, List.replicate_succ]
    simp

/-- The minimal encoding agrees with the fixed-width big-endian expansion at
its own length. -/
theorem minBigEndian_eq_beBytes (n : Nat) :
    minBigEndian n = beBytes (minBigEndian n).length n := by
  induction n using Nat.strong_induction_on with
  | _ n ih =>
    by_cases hn : n = 0
    · subst hn
      rw [minBigEndian_eq]
      rfl
    · have hd : n / 256 < n := Nat.div_lt_self (Nat.pos_of_ne_zero hn) (by norm_num)
      have hih := ih (n / 256) hd
      have hlen : (minBigEndian n).length = (minBigEndian (n / 256)).length + 1 := by
        conv_lhs => rw [minBigEndian_eq, if_neg hn]
        simp
      rw [hlen]
      conv_lhs => rw [minBigEndian_eq, if_neg hn]
      show minBigEndian (n / 256) ++ [⟨n % 256, Nat.mod_lt _ (by norm_num)⟩] =
        beBytes (minBigEndian (n / 256)).length (n / 256) ++
          [⟨n % 256, Nat.mod_lt _ (by norm_num)⟩]
      rw [← hih]

/-- The source's pad-the-minimal-bytes computation equals the spec's `k`-byte
big-endian encoding whenever the value fits in `k` bytes. -/
theorem leftPad_minBigEndian {n k : Nat} (h : n < 256 ^ k) :
    leftPadBytes (minBigEndian n) k = beBytes k n := by
  have hL : (minBigEndian n).length ≤ k := minBigEndian_length_le h
  have hlt : n < 256 ^ (minBigEndian n).length := minBigEndian_lt n
  rw [leftPadBytes_eq_replicate hL, beBytes_of_le hlt k hL]
  rw [← minBigEndian_eq_beBytes]

theorem pow_256_32 : (256 : Nat) ^ 32 = 2 ^ 256 := by norm_num

theorem create_err1 {E : Type} (m : RoundsManager E) (e : E)
    (hlast : m.lastInitializedRound = .error e) :
    Create m = .error e := by
  simp [Create, hlast]

theorem create_err2 {E : Type} (m : RoundsManager E) (r : Nat) (e : E)
    (hlast : m.lastInitializedRound = .ok r)
    (hhash : m.blockHashForRound r = .error e) :
    Create m = .error e := by
  simp [Create, hlast, hhash]

theorem create_ok {E : Type} (m : RoundsManager E) (r : Nat) (h : Bytes32)
    (hlast : m.lastInitializedRound = .ok r)
    (hhash : m.blockHashForRound r = .ok h) :
    Create m = .ok (leftPadBytes (minBigEndian r) 32 ++ h.val) := by
  simp [Create, hlast, hhash]

theorem validateWithLog_len {E : Type} (m : RoundsManager E) (auxData : List Byte)
    (hlen : auxData.length ≠ 64) :
    ValidateWithLog m auxData = (some .errInvalidAuxDataLength, []) := by
  simp [ValidateWithLog, hlen]

theorem validateWithLog_err1 {E : Type} (m : RoundsManager E) (auxData : List Byte)
    (hlen : auxData.length = 64) (e : E)
    (hlast : m.lastInitializedRound = .error e) :
    ValidateWithLog m auxData = (some (.oracle e), [.lastInitializedRound]) := by
  simp [ValidateWithLog, hlen, hlast]

theorem validateWithLog_err2 {E : Type} (m : RoundsManager E) (auxData : List Byte)
    (hlen : auxData.length = 64) (r : Nat) (e : E)
    (hlast : m.lastInitializedRound = .ok r)
    (hhash : m.blockHashForRound r = .error e) :
    ValidateWithLog m auxData =
      (some (.oracle e), [.lastInitializedRound, .blockHashForRound r]) := by
  simp [ValidateWithLog, hlen, hlast, hhash]

theorem validateWithLog_round_mismatch {E : Type} (m : RoundsManager E)
    (auxData : List Byte) (hlen : auxData.length = 64) (r : Nat) (h : Bytes32)
    (hlast : m.lastInitializedRound = .ok r)
    (hhash : m.blockHashForRound r = .ok h)
    (hne : setBytes (auxData.take 32) ≠ r) :
    ValidateWithLog m auxData =
      (some .errInvalidCreationRound,
        [.lastInitializedRound, .blockHashForRound r]) := by
  simp [ValidateWithLog, hlen, hlast, hhash, hne]

theorem validateWithLog_hash_mismatch {E : Type} (m : RoundsManager E)
    (auxData : List Byte) (hlen : auxData.length = 64) (r : Nat) (h : Bytes32)
    (hlast : m.lastInitializedRound = .ok r)
    (hhash : m.blockHashForRound r = .ok h)
    (heq : setBytes (auxData.take 32) = r)
    (hne : auxData.drop 32 ≠ h.val) :
    ValidateWithLog m auxData =
      (some .errInvalidCreationRoundBlockHash,
        [.lastInitializedRound, .blockHashForRound r]) := by
  simp [ValidateWithLog, hlen, hlast, hhash, heq, hne]

theorem validateWithLog_success {E : Type} (m : RoundsManager E)
    (auxData : List Byte) (hlen : auxData.length = 64) (r : Nat) (h : Bytes32)
    (hlast : m.lastInitializedRound = .ok r)
    (hhash : m.blockHashForRound r = .ok h)
    (heq : setBytes (auxData.take 32) = r)
    (heqh : auxData.drop 32 = h.val) :
    ValidateWithLog m auxData =
      (none, [.lastInitializedRound, .blockHashForRound r]) := by
  simp [ValidateWithLog, hlen, hlast, hhash, heq, heqh]

/-- Claim C1: for every round below `2 ^ 256` and every 32-byte block hash, if
the oracle answers both queries with that round and hash, then `Validate`
applied to the output of `Create` succeeds (returns `nil`). -/
theorem c1_round_trip {E : Type} (r : Nat) (h : Bytes32) (m : RoundsManager E)
    (hr : r < 2 ^ 256)
    (hlast : m.lastInitializedRound = .ok r)
    (hhash : m.blockHashForRound r = .ok h) :
    Create m = .ok (leftPadBytes (minBigEndian r) 32 ++ h.val) ∧
      Validate m (leftPadBytes (minBigEndian r) 32 ++ h.val) = none := by
  have hr' : r < 256 ^ 32 := by rw [pow_256_32]; exact hr
  have hLle : (minBigEndian r).length ≤ 32 := minBigEndian_length_le hr'
  have hplen : (leftPadBytes (minBigEndian r) 32).length = 32 := leftPadBytes_length hLle
  have hlen : (leftPadBytes (minBigEndian r) 32 ++ h.val).length = 64 := by
    rw [List.length_append, hplen, h.property]
  have htake : (leftPadBytes (minBigEndian r) 32 ++ h.val).take 32 =
      leftPadBytes (minBigEndian r) 32 := List.take_left' hplen
  have hdrop : (leftPadBytes (minBigEndian r) 32 ++ h.val).drop 32 = h.val :=
    List.drop_left' hplen
  have hdec : setBytes (leftPadBytes (minBigEndian r) 32) = r := by
    rw [leftPadBytes_eq_replicate hLle, setBytes_replicate_zero_append,
      setBytes_minBigEndian]
  refine ⟨create_ok m r h hlast hhash, ?_⟩
  unfold Validate
  rw [validateWithLog_success m _ hlen r h hlast hhash (by rw [htake, hdec]) hdrop]

/-- Claim C1 witness at round 5 with the all-zero hash. -/
theorem c1_round_trip_witness :
    Create (⟨.ok 5, fun _ => .ok zero32⟩ : RoundsManager Bool) =
        .ok (leftPadBytes (minBigEndian 5) 32 ++ zero32.val) ∧
      Validate (⟨.ok 5, fun _ => .ok zero32⟩ : RoundsManager Bool)
        (leftPadBytes (minBigEndian 5) 32 ++ zero32.val) = none :=
  c1_round_trip 5 zero32 _ (by norm_num) rfl rfl

/-- Claim C2: under the same oracle agreement, `Create` returns exactly the
32-byte big-endian encoding of the round followed by the 32 hash bytes, 64
bytes in all; round 0 encodes as 32 zero bytes, and round 0 with the all-zero
hash yields 64 zero bytes. -/
theorem c2_create_format {E : Type} (r : Nat) (h : Bytes32) (m : RoundsManager E)
    (hr : r < 2 ^ 256)
    (hlast : m.lastInitializedRound = .ok r)
    (hhash : m.blockHashForRound r = .ok h) :
    Create m = .ok (beBytes 32 r ++ h.val) ∧
      (beBytes 32 r ++ h.val).length = 64 ∧
      beBytes 32 0 = List.replicate 32 (0 : Byte) ∧
      beBytes 32 0 ++ zero32.val = List.replicate 64 (0 : Byte) := by
  have hr' : r < 256 ^ 32 := by rw [pow_256_32]; exact hr
  refine ⟨?_, ?_, beBytes_zero 32, ?_⟩
  · rw [create_ok m r h hlast hhash, leftPad_minBigEndian hr']
  · rw [List.length_append, beBytes_length, h.property]
  · rw [beBytes_zero 32]
    show List.replicate 32 (0 : Byte) ++ List.replicate 32 (0 : Byte) =
      List.replicate 64 (0 : Byte)
    rw [← List.replicate_add]

/-- Claim C2 witness at round 5 with the all-zero hash. -/
theorem c2_create_format_witness :
    Create (⟨.ok 5, fun _ => .ok zero32⟩ : RoundsManager Bool) =
        .ok (beBytes 32 5 ++ zero32.val) ∧
      (beBytes 32 5 ++ zero32.val).length = 64 ∧
      beBytes 32 0 = List.replicate 32 (0 : Byte) ∧
      beBytes 32 0 ++ zero32.val = List.replicate 64 (0 : Byte) :=
  c2_create_format 5 zero32 _ (by norm_num) rfl rfl

/-- Claim C3: any input whose length differs from 64 is rejected with the
invalid-length error, and no oracle query is performed. -/
theorem c3_length_rejection {E : Type} (m : RoundsManager E) (auxData : List Byte)
    (hlen : auxData.length ≠ 64) :
    Validate m auxData = some .errInvalidAuxDataLength ∧
      ValidateCalls m auxData = [] := by
  unfold Validate ValidateCalls
  rw [validateWithLog_len m auxData hlen]
  exact ⟨rfl, rfl⟩

/-- Claim C3 witness on the empty input. -/
theorem c3_length_rejection_witness :
    Validate (⟨.ok 5, fun _ => .ok zero32⟩ : RoundsManager Bool) [] =
        some .errInvalidAuxDataLength ∧
      ValidateCalls (⟨.ok 5, fun _ => .ok zero32⟩ : RoundsManager Bool) [] = [] :=
  c3_length_rejection _ [] (by decide)

/-- Claim C4: an error from either oracle query is propagated verbatim:
`Create` returns exactly that error and no data, and `Validate` on a 64-byte
input returns exactly that error. -/
theorem c4_oracle_error_propagation {E : Type} (m : RoundsManager E) (e : E) :
    (m.lastInitializedRound = .error e → Create m = .error e) ∧
    (∀ r, m.lastInitializedRound = .ok r → m.blockHashForRound r = .error e →
      Create m = .error e) ∧
    (∀ auxData : List Byte, auxData.length = 64 →
      m.lastInitializedRound = .error e →
      Validate m auxData = some (.oracle e)) ∧
    (∀ auxData : List Byte, auxData.length = 64 → ∀ r,
      m.lastInitializedRound = .ok r → m.blockHashForRound r = .error e →
      Validate m auxData = some (.oracle e)) := by
  refine ⟨fun hlast => create_err1 m e hlast,
    fun r hlast hhash => create_err2 m r e hlast hhash,
    fun auxData hlen hlast => ?_,
    fun auxData hlen r hlast hhash => ?_⟩
  · unfold Validate
    rw [validateWithLog_err1 m auxData hlen e hlast]
  · unfold Validate
    rw [validateWithLog_err2 m auxData hlen r e hlast hhash]

/-- Claim C4 witness: each of the four propagation paths at a concrete
oracle. -/
theorem c4_oracle_error_propagation_witness :
    Create (⟨.error true, fun _ => .ok zero32⟩ : RoundsManager Bool) = .error true ∧
    Create (⟨.ok 5, fun _ => .error true⟩ : RoundsManager Bool) = .error true ∧
    Validate (⟨.error true, fun _ => .ok zero32⟩ : RoundsManager Bool)
      (List.replicate 64 (0 : Byte)) = some (.oracle true) ∧
    Validate (⟨.ok 5, fun _ => .error true⟩ : RoundsManager Bool)
      (List.replicate 64 (0 : Byte)) = some (.oracle true) :=
  ⟨(c4_oracle_error_propagation _ true).1 rfl,
    (c4_oracle_error_propagation _ true).2.1 5 rfl rfl,
    (c4_oracle_error_propagation _ true).2.2.1 (List.replicate 64 (0 : Byte))
      (by decide) rfl,
    (c4_oracle_error_propagation _ true).2.2.2 (List.replicate 64 (0 : Byte))
      (by decide) 5 rfl rfl⟩

/-- Claim C5: the error returned by `Validate` follows the source's priority:
length mismatch first; oracle failures gate the comparisons; a round mismatch
is reported before any hash comparison (in particular when both halves
mismatch); a hash mismatch is reported only when the round matches. -/
theorem c5_error_priority {E : Type} (m : RoundsManager E) (auxData : List Byte) :
    (auxData.length ≠ 64 → Validate m auxData = some .errInvalidAuxDataLength) ∧
    (auxData.length = 64 → ∀ e, m.lastInitializedRound = .error e →
      Validate m auxData = some (.oracle e)) ∧
    (auxData.length = 64 → ∀ r e, m.lastInitializedRound = .ok r →
      m.blockHashForRound r = .error e →
      Validate m auxData = some (.oracle e)) ∧
    (auxData.length = 64 → ∀ r h, m.lastInitializedRound = .ok r →
      m.blockHashForRound r = .ok h → setBytes (auxData.take 32) ≠ r →
      Validate m auxData = some .errInvalidCreationRound) ∧
    (auxData.length = 64 → ∀ r h, m.lastInitializedRound = .ok r →
      m.blockHashForRound r = .ok h → setBytes (auxData.take 32) = r →
      auxData.drop 32 ≠ h.val →
      Validate m auxData = some .errInvalidCreationRoundBlockHash) := by
  refine ⟨fun hlen => ?_, fun hlen e hlast => ?_, fun hlen r e hlast hhash => ?_,
    fun hlen r h hlast hhash hne => ?_, fun hlen r h hlast hhash heq hne => ?_⟩
  · unfold Validate
    rw [validateWithLog_len m auxData hlen]
  · unfold Validate
    rw [validateWithLog_err1 m auxData hlen e hlast]
  · unfold Validate
    rw [validateWithLog_err2 m auxData hlen r e hlast hhash]
  · unfold Validate
    rw [validateWithLog_round_mismatch m auxData hlen r h hlast hhash hne]
  · unfold Validate
    rw [validateWithLog_hash_mismatch m auxData hlen r h hlast hhash heq hne]

/-- Claim C5 witness: the five priority outcomes, each at a concrete oracle
and input; the round-mismatch case uses an input whose hash half also
mismatches. -/
theorem c5_error_priority_witness :
    Validate (⟨.ok 5, fun _ => .ok zero32⟩ : RoundsManager Bool)
        (List.replicate 63 (0 : Byte)) = some .errInvalidAuxDataLength ∧
    Validate (⟨.error true, fun _ => .ok zero32⟩ : RoundsManager Bool)
        (List.replicate 64 (0 : Byte)) = some (.oracle true) ∧
    Validate (⟨.ok 5, fun _ => .error true⟩ : RoundsManager Bool)
        (List.replicate 64 (0 : Byte)) = some (.oracle true) ∧
    Validate (⟨.ok 5, fun _ =>
          .ok ⟨List.replicate 31 (0 : Byte) ++ [(1 : Byte)], by decide⟩⟩ :
        RoundsManager Bool)
        (List.replicate 64 (0 : Byte)) = some .errInvalidCreationRound ∧
    Validate (⟨.ok 0, fun _ =>
          .ok ⟨List.replicate 31 (0 : Byte) ++ [(1 : Byte)], by decide⟩⟩ :
        RoundsManager Bool)
        (List.replicate 64 (0 : Byte)) = some .errInvalidCreationRoundBlockHash :=
  ⟨(c5_error_priority _ _).1 (by decide),
    (c5_error_priority _ _).2.1 (by decide) true rfl,
    (c5_error_priority _ _).2.2.1 (by decide) 5 true rfl rfl,
    (c5_error_priority _ _).2.2.2.1 (by decide) 5
      ⟨List.replicate 31 (0 : Byte) ++ [(1 : Byte)], by decide⟩ rfl rfl (by decide),
    (c5_error_priority _ _).2.2.2.2 (by decide) 0
      ⟨List.replicate 31 (0 : Byte) ++ [(1 : Byte)], by decide⟩ rfl rfl (by decide)
      (by decide)⟩

/-- Claim C6: `Validate` queries the block hash for the oracle's current
round, not the decoded creation round: on a 64-byte input decoding to a round
different from the oracle's current round, with the hash query for the
current round succeeding, the result is the round-mismatch error and the
recorded queries are the current-round query followed by the hash query at
the current round. -/
theorem c6_queries_current_round {E : Type} (m : RoundsManager E)
    (auxData : List Byte) (hlen : auxData.length = 64) (r' : Nat) (h' : Bytes32)
    (hlast : m.lastInitializedRound = .ok r')
    (hhash : m.blockHashForRound r' = .ok h')
    (hne : setBytes (auxData.take 32) ≠ r') :
    Validate m auxData = some .errInvalidCreationRound ∧
      ValidateCalls m auxData =
        [.lastInitializedRound, .blockHashForRound r'] := by
  unfold Validate ValidateCalls
  rw [validateWithLog_round_mismatch m auxData hlen r' h' hlast hhash hne]
  exact ⟨rfl, rfl⟩

/-- Claim C6 witness: aux data encoding round 2 while the oracle's current
round is 5; the hash query is recorded at round 5. -/
theorem c6_queries_current_round_witness :
    Validate (⟨.ok 5, fun _ => .ok zero32⟩ : RoundsManager Bool)
        (beBytes 32 2 ++ zero32.val) = some .errInvalidCreationRound ∧
      ValidateCalls (⟨.ok 5, fun _ => .ok zero32⟩ : RoundsManager Bool)
        (beBytes 32 2 ++ zero32.val) =
        [.lastInitializedRound, .blockHashForRound 5] :=
  c6_queries_current_round _ (beBytes 32 2 ++ zero32.val) (by decide) 5 zero32
    rfl rfl (by decide)

/-- Claim C7: on a 64-byte input with both oracle queries succeeding,
`Validate` succeeds exactly when the numeric value of the first 32 bytes
equals the current round and the last 32 bytes equal that round's block hash
byte-for-byte; a failing oracle query precludes success. -/
theorem c7_comparison_semantics {E : Type} (m : RoundsManager E)
    (auxData : List Byte) (hlen : auxData.length = 64) :
    (∀ r h, m.lastInitializedRound = .ok r → m.blockHashForRound r = .ok h →
      (Validate m auxData = none ↔
        setBytes (auxData.take 32) = r ∧ auxData.drop 32 = h.val)) ∧
    (∀ e, m.lastInitializedRound = .error e → Validate m auxData ≠ none) ∧
    (∀ r e, m.lastInitializedRound = .ok r → m.blockHashForRound r = .error e →
      Validate m auxData ≠ none) := by
  refine ⟨fun r h hlast hhash => ?_, fun e hlast => ?_, fun r e hlast hhash => ?_⟩
  · constructor
    · intro hv
      by_cases heq : setBytes (auxData.take 32) = r
      · by_cases heqh : auxData.drop 32 = h.val
        · exact ⟨heq, heqh⟩
        · exfalso
          unfold Validate at hv
          rw [validateWithLog_hash_mismatch m auxData hlen r h hlast hhash heq heqh]
            at hv
          simp at hv
      · exfalso
        unfold Validate at hv
        rw [validateWithLog_round_mismatch m auxData hlen r h hlast hhash heq] at hv
        simp at hv
    · rintro ⟨heq, heqh⟩
      unfold Validate
      rw [validateWithLog_success m auxData hlen r h hlast hhash heq heqh]
  · unfold Validate
    rw [validateWithLog_err1 m auxData hlen e hlast]
    simp
  · unfold Validate
    rw [validateWithLog_err2 m auxData hlen r e hlast hhash]
    simp

/-- Claim C7 witness: the success characterisation at round 0 with the
all-zero hash, and the two oracle-failure exclusions. -/
theorem c7_comparison_semantics_witness :
    (Validate (⟨.ok 0, fun _ => .ok zero32⟩ : RoundsManager Bool)
        (List.replicate 64 (0 : Byte)) = none ↔
      setBytes ((List.replicate 64 (0 : Byte)).take 32) = 0 ∧
        (List.replicate 64 (0 : Byte)).drop 32 = zero32.val) ∧
    Validate (⟨.error true, fun _ => .ok zero32⟩ : RoundsManager Bool)
        (List.replicate 64 (0 : Byte)) ≠ none ∧
    Validate (⟨.ok 5, fun _ => .error true⟩ : RoundsManager Bool)
        (List.replicate 64 (0 : Byte)) ≠ none :=
  ⟨(c7_comparison_semantics _ _ (by decide)).1 0 zero32 rfl rfl,
    (c7_comparison_semantics _ _ (by decide)).2.1 true rfl,
    (c7_comparison_semantics _ _ (by decide)).2.2 5 true rfl rfl⟩

/-- Claim C8: on the 64-zero-byte input, with both oracle queries succeeding,
`Validate` succeeds exactly when the current round is 0 and its block hash is
the all-zero 32 bytes. -/
theorem c8_zero_not_sentinel {E : Type} (m : RoundsManager E) (r : Nat)
    (h : Bytes32)
    (hlast : m.lastInitializedRound = .ok r)
    (hhash : m.blockHashForRound r = .ok h) :
    (Validate m (List.replicate 64 (0 : Byte)) = none ↔
      r = 0 ∧ h.val = List.replicate 32 (0 : Byte)) := by
  have hlen : (List.replicate 64 (0 : Byte)).length = 64 := by decide
  have htake : (List.replicate 64 (0 : Byte)).take 32 =
      List.replicate 32 (0 : Byte) := by decide
  have hdrop : (List.replicate 64 (0 : Byte)).drop 32 =
      List.replicate 32 (0 : Byte) := by decide
  have hset : setBytes ((List.replicate 64 (0 : Byte)).take 32) = 0 := by decide
  constructor
  · intro hv
    by_cases heq : setBytes ((List.replicate 64 (0 : Byte)).take 32) = r
    · by_cases heqh : (List.replicate 64 (0 : Byte)).drop 32 = h.val
      · exact ⟨by rw [← heq, hset], by rw [← heqh, hdrop]⟩
      · exfalso
        unfold Validate at hv
        rw [validateWithLog_hash_mismatch m _ hlen r h hlast hhash heq heqh] at hv
        simp at hv
    · exfalso
      unfold Validate at hv
      rw [validateWithLog_round_mismatch m _ hlen r h hlast hhash heq] at hv
      simp at hv
  · rintro ⟨hr0, hh⟩
    subst hr0
    unfold Validate
    rw [validateWithLog_success m _ hlen 0 h hlast hhash hset
      (by rw [hdrop, hh])]

/-- Claim C8 witness: oracle at round 0 with the all-zero hash. -/
theorem c8_zero_not_sentinel_witness :
    Validate (⟨.ok 0, fun _ => .ok zero32⟩ : RoundsManager Bool)
        (List.replicate 64 (0 : Byte)) = none ↔
      (0 : Nat) = 0 ∧ zero32.val = List.replicate 32 (0 : Byte) :=
  c8_zero_not_sentinel _ 0 zero32 rfl rfl

/-- Claim C9: `Create` and `Validate` are deterministic functions of the
oracle's responses: two oracles answering identically yield identical
results. -/
theorem c9_determinism {E : Type} (m1 m2 : RoundsManager E)
    (hlast : m1.lastInitializedRound = m2.lastInitializedRound)
    (hhash : ∀ r, m1.blockHashForRound r = m2.blockHashForRound r) :
    Create m1 = Create m2 ∧
      ∀ auxData, Validate m1 auxData = Validate m2 auxData := by
  have hm : m1 = m2 := by
    cases m1
    cases m2
    simp only [RoundsManager.mk.injEq]
    exact ⟨hlast, funext hhash⟩
  subst hm
  exact ⟨rfl, fun _ => rfl⟩

/-- Claim C9 witness: two syntactically identical oracles. -/
theorem c9_determinism_witness :
    Create (⟨.ok 5, fun _ => .ok zero32⟩ : RoundsManager Bool) =
        Create (⟨.ok 5, fun _ => .ok zero32⟩ : RoundsManager Bool) ∧
      ∀ auxData,
        Validate (⟨.ok 5, fun _ => .ok zero32⟩ : RoundsManager Bool) auxData =
          Validate (⟨.ok 5, fun _ => .ok zero32⟩ : RoundsManager Bool) auxData :=
  c9_determinism _ _ rfl (fun _ => rfl)

/-- Claim C10: when the oracle's round needs more than 32 bytes (at least
`2 ^ 256`), `Create` still succeeds and returns `32 + bytelen(round)` bytes,
more than 64; such an output is rejected by `Validate` for its length. -/
theorem c10_oversized_round {E : Type} (r : Nat) (h : Bytes32)
    (m : RoundsManager E)
    (hr : 2 ^ 256 ≤ r)
    (hlast : m.lastInitializedRound = .ok r)
    (hhash : m.blockHashForRound r = .ok h) :
    Create m = .ok (minBigEndian r ++ h.val) ∧
      (minBigEndian r ++ h.val).length = 32 + (minBigEndian r).length ∧
      64 < (minBigEndian r ++ h.val).length ∧
      ∀ m2 : RoundsManager E,
        Validate m2 (minBigEndian r ++ h.val) = some .errInvalidAuxDataLength := by
  have h32 : 32 < (minBigEndian r).length := by
    by_contra hle
    push_neg at hle
    have h1 : r < 256 ^ (minBigEndian r).length := minBigEndian_lt r
    have h2 : (256 : Nat) ^ (minBigEndian r).length ≤ 256 ^ 32 :=
      Nat.pow_le_pow_right (by norm_num) hle
    rw [pow_256_32] at h2
    omega
  have hpad : leftPadBytes (minBigEndian r) 32 = minBigEndian r := by
    unfold leftPadBytes
    rw [if_pos (le_of_lt h32)]
  have hlen : (minBigEndian r ++ h.val).length = 32 + (minBigEndian r).length := by
    rw [List.length_append, h.property, Nat.add_comm]
  refine ⟨?_, hlen, by rw [hlen]; omega, fun m2 => ?_⟩
  · rw [create_ok m r h hlast hhash, hpad]
  · unfold Validate
    rw [validateWithLog_len m2 _ (by rw [hlen]; omega)]

/-- Claim C10 witness at round `2 ^ 256`, the least oversized round. -/
theorem c10_oversized_round_witness :
    Create (⟨.ok (2 ^ 256), fun _ => .ok zero32⟩ : RoundsManager Bool) =
        .ok (minBigEndian (2 ^ 256) ++ zero32.val) ∧
      (minBigEndian (2 ^ 256) ++ zero32.val).length =
        32 + (minBigEndian (2 ^ 256)).length ∧
      64 < (minBigEndian (2 ^ 256) ++ zero32.val).length ∧
      ∀ m2 : RoundsManager Bool,
        Validate m2 (minBigEndian (2 ^ 256) ++ zero32.val) =
          some .errInvalidAuxDataLength :=
  c10_oversized_round (2 ^ 256) zero32 _ le_rfl rfl rfl

end PM
